import Mathlib

/-!
Verification of the glTF accessor decode-and-overlay core and its
surrounding façade types.

The repository's files `src/accessor/sparse.rs`, `src/texture.rs`,
`src/skin/util.rs` and `src/camera.rs` are embedded from the source.
The decode core itself (View Resolver, Element Codec, Dense Reader,
Sparse Overlay) is not part of the shipped sources; those definitions
are modelled from the specification and each such definition says so in
its doc comment.

Conventions of the embedding:
* byte slices are `List Nat` with each entry one byte;
* machine floats are modelled by exact rationals (`ℚ`), IEEE-754
  binary32 bit patterns are decoded exactly for finite values;
* fallible operations return `Option`, with `none` standing for the
  surfaced failure; a Rust `unreachable!()`/`unwrap()` panic is kept
  apart from an error outcome where a claim distinguishes the two.
-/

namespace Gltf

/-- A decoded element: the flat list of its numeric components. -/
abbrev Element := List ℚ

/-- Little-endian value of a byte list (least significant byte first). -/
def leValue (bytes : List Nat) : Nat :=
  bytes.foldr (fun b acc => b + 256 * acc) 0

/-- Bounds-checked extraction of `n` bytes at `off` from a slice.
`none` models the surfaced out-of-bounds failure; by construction the
read never touches bytes past the slice. -/
def readBytes (s : List Nat) (off n : Nat) : Option (List Nat) :=
  if off + n ≤ s.length then some ((s.drop off).take n) else none

/-- Two's-complement reinterpretation of a raw `bits`-wide unsigned value. -/
def toSigned (raw bits : Nat) : Int :=
  if raw < 2 ^ (bits - 1) then (raw : Int) else (raw : Int) - 2 ^ bits

/-- Exact rational value of an IEEE-754 binary32 bit pattern.
Modelled from the spec: the Element Codec decodes `Float` components as
the IEEE-754 single-precision value at the offset.  Finite values are
decoded exactly; the non-rational Inf/NaN patterns (exponent 255) fall
outside the rational model and are mapped to `0`. -/
def decodeF32 (w : Nat) : ℚ :=
  let sign : Nat := w / 2 ^ 31
  let expo : Nat := (w / 2 ^ 23) % 2 ^ 8
  let frac : Nat := w % 2 ^ 23
  let mag : ℚ :=
    if expo = 0 then (frac : ℚ) / 2 ^ 149
    else if expo = 255 then 0
    else ((2 ^ 23 + frac : Nat) : ℚ) * (2 : ℚ) ^ expo / 2 ^ 150
  if sign % 2 = 1 then -mag else mag

/-- Modelled from the spec: the component encodings of §3
(`ComponentEncoding`), mirroring wire codes 5120..5126. -/
inductive ComponentEncoding
  | byte
  | unsignedByte
  | short
  | unsignedShort
  | unsignedInt
  | float
deriving DecidableEq

/-- Modelled from the spec: `component_byte_size(encoding) -> 1|2|4`. -/
def componentByteSize : ComponentEncoding → Nat
  | .byte => 1
  | .unsignedByte => 1
  | .short => 2
  | .unsignedShort => 2
  | .unsignedInt => 4
  | .float => 4

/-- Modelled from the spec: the element shapes of §3 (`ElementShape`). -/
inductive ElementShape
  | scalar
  | vec2
  | vec3
  | vec4
  | mat2
  | mat3
  | mat4
deriving DecidableEq

/-- Modelled from the spec: the fixed component count of each shape
(1,2,3,4,4,9,16). -/
def componentCount : ElementShape → Nat
  | .scalar => 1
  | .vec2 => 2
  | .vec3 => 3
  | .vec4 => 4
  | .mat2 => 4
  | .mat3 => 9
  | .mat4 => 16

/-- Number of matrix columns, `none` for non-matrix shapes. -/
def matCols : ElementShape → Option Nat
  | .mat2 => some 2
  | .mat3 => some 3
  | .mat4 => some 4
  | _ => none

/-- Round `n` up to a multiple of 4 (the per-column alignment rule). -/
def align4 (n : Nat) : Nat := ((n + 3) / 4) * 4

/-- Modelled from the spec: byte offset of each data component within
one element, in ascending byte order.  Matrix columns of 1- or 2-byte
components are padded to a 4-byte boundary; the padding bytes are not
data components. -/
def componentOffsets (shape : ElementShape) (cs : Nat) : List Nat :=
  match matCols shape with
  | some c =>
      (List.range c).flatMap fun col =>
        (List.range c).map fun r => col * align4 (c * cs) + r * cs
  | none => (List.range (componentCount shape)).map fun k => k * cs

/-- Modelled from the spec: `padded_element_byte_size(encoding, shape)`;
for matrices each column is padded to a 4-byte boundary. -/
def paddedElementByteSize (enc : ComponentEncoding) (shape : ElementShape) : Nat :=
  match matCols shape with
  | some c => c * align4 (c * componentByteSize enc)
  | none => componentCount shape * componentByteSize enc

/-- Modelled from the spec: decode of one raw component from its bytes
(§4.2), including the normalized-integer scaling law: unsigned types
divide by the maximum unsigned value of the width, signed types divide
by the maximum positive value and clamp to `≥ -1`; `Float` passes
through. -/
def decodeComponent (enc : ComponentEncoding) (norm : Bool) (bytes : List Nat) : ℚ :=
  let raw := leValue bytes
  match enc with
  | .unsignedByte => if norm then (raw : ℚ) / 255 else (raw : ℚ)
  | .unsignedShort => if norm then (raw : ℚ) / 65535 else (raw : ℚ)
  | .unsignedInt => if norm then (raw : ℚ) / 4294967295 else (raw : ℚ)
  | .byte =>
      let v : Int := toSigned raw 8
      if norm then max ((v : ℚ) / 127) (-1) else (v : ℚ)
  | .short =>
      let v : Int := toSigned raw 16
      if norm then max ((v : ℚ) / 32767) (-1) else (v : ℚ)
  | .float => decodeF32 raw

/-- Sequence all the `Option` results of `f` over a list (order kept). -/
def optMap (f : α → Option β) : List α → Option (List β)
  | [] => some []
  | a :: l =>
      match f a, optMap f l with
      | some b, some bs => some (b :: bs)
      | _, _ => none

/-- Modelled from the spec: `decode(encoding, shape, bytes_at_offset)`
of §4.2 — each component is read bounds-checked at its own offset; the
element fails exactly when some component's bytes fall outside the
slice. -/
def decodeElement (enc : ComponentEncoding) (shape : ElementShape) (norm : Bool)
    (s : List Nat) (off : Nat) : Option Element :=
  optMap
    (fun co => (readBytes s (off + co) (componentByteSize enc)).map
      (decodeComponent enc norm))
    (componentOffsets shape (componentByteSize enc))

/-- Last data byte (exclusive) used by one element, relative to the
element's start: the largest component offset plus the component size. -/
def elementSpan (enc : ComponentEncoding) (shape : ElementShape) : Nat :=
  (componentOffsets shape (componentByteSize enc)).foldr
    (fun co m => max (co + componentByteSize enc) m) 0

/-- Modelled from the spec: the accessor metadata the decode core reads
(§3 `Accessor`): component encoding, element shape, normalized flag,
element count, and byte offset within the resolved view. -/
structure AccessorDesc where
  encoding : ComponentEncoding
  shape : ElementShape
  normalized : Bool
  count : Nat
  byteOffset : Nat
deriving DecidableEq

/-- The all-zero element of a shape (every component zero). -/
def zeroElement (shape : ElementShape) : Element :=
  List.replicate (componentCount shape) 0

/-- Modelled from the spec: the effective stride of §4.3 — the view's
explicit stride if present, else the padded element byte size. -/
def strideOf (a : AccessorDesc) (viewStride : Option Nat) : Nat :=
  viewStride.getD (paddedElementByteSize a.encoding a.shape)

/-- Modelled from the spec: the Dense Reader's element at index `i`
over a resolved slice `s` with effective stride `st` — the element's
byte position is `accessor.byte_offset + i * stride` within the slice
(§4.3); an element whose required bytes fall outside the slice fails. -/
def denseElementAt (a : AccessorDesc) (s : List Nat) (st i : Nat) : Option Element :=
  decodeElement a.encoding a.shape a.normalized s (a.byteOffset + i * st)

/-- Modelled from the spec: the Dense Reader's sequence (§4.3).  With no
base view it is `count` zero-valued elements; otherwise element `i` is
decoded at `byte_offset + i * stride` in the resolved slice. -/
def denseSeq (a : AccessorDesc) (base : Option (List Nat × Option Nat)) :
    List (Option Element) :=
  match base with
  | none => List.replicate a.count (some (zeroElement a.shape))
  | some (s, vs) => (List.range a.count).map (denseElementAt a s (strideOf a vs))

/-- The index data type, from `src/accessor/sparse.rs` (`IndexType`). -/
inductive IndexType
  | u8
  | u16
  | u32
deriving DecidableEq

/-- Wire-format numeric code of each index type, from the enum
discriminants in `src/accessor/sparse.rs` (`U8 = 5121`, `U16 = 5123`,
`U32 = 5125`). -/
def IndexType.code : IndexType → Nat
  | .u8 => 5121
  | .u16 => 5123
  | .u32 => 5125

/-- Number of bytes one index occupies, from `IndexType::size` in
`src/accessor/sparse.rs`. -/
def IndexType.size : IndexType → Nat
  | .u8 => 1
  | .u16 => 2
  | .u32 => 4

/-- The accessor component types of the wire schema
(`json::accessor::ComponentType`): codes 5120, 5121, 5122, 5123, 5125,
5126. -/
inductive ComponentType
  | i8
  | u8
  | i16
  | u16
  | u32
  | f32
deriving DecidableEq

/-- Outcome space for `Indices::index_type`: a successful mapping, a
malformed-input error (what §9 of the spec prescribes for unknown
codes), or a panic via `unreachable!()`. -/
inductive IndexTypeOutcome
  | ok (t : IndexType)
  | malformedError
  | unreachablePanic
deriving DecidableEq

/-- Embedding of `Indices::index_type` from `src/accessor/sparse.rs`:
`U8`, `U16`, `U32` map to the corresponding `IndexType`; every other
component type hits the `_ => unreachable!()` arm, modelled as
`unreachablePanic`. -/
def index_type : ComponentType → IndexTypeOutcome
  | .u8 => .ok .u8
  | .u16 => .ok .u16
  | .u32 => .ok .u32
  | _ => .unreachablePanic

/-- Modelled from the spec: decode of the sparse index array (§4.4
step 1) — `sparse.count` raw little-endian unsigned values, each read
bounds-checked at `indices.byte_offset + j * index_component_size`. -/
def decodeIndices (it : IndexType) (off n : Nat) (s : List Nat) : Option (List Nat) :=
  optMap (fun j => (readBytes s (off + j * it.size) it.size).map leValue)
    (List.range n)

/-- Modelled from the spec: decode of the sparse value array (§4.4
step 2) — `sparse.count` elements of the accessor's shape/encoding at
`values.byte_offset + j * padded_element_byte_size`. -/
def decodeValues (enc : ComponentEncoding) (shape : ElementShape) (norm : Bool)
    (off n : Nat) (s : List Nat) : Option (List Element) :=
  optMap
    (fun j => decodeElement enc shape norm s (off + j * paddedElementByteSize enc shape))
    (List.range n)

/-- Boolean test that a list of indices is strictly increasing. -/
def strictIncr : List Nat → Bool
  | [] => true
  | [_] => true
  | a :: b :: rest => decide (a < b) && strictIncr (b :: rest)

/-- Modelled from the spec: the single linear merge pass of §4.4
step 3 — at output position `i`, if `i` equals the next pending decoded
index, emit the corresponding decoded value and advance; otherwise emit
the base sequence's element. -/
def overlayMerge {α : Type} : List α → Nat → List (Nat × α) → List α
  | [], _, _ => []
  | b :: bs, i, [] => b :: overlayMerge bs (i + 1) []
  | b :: bs, i, (j, v) :: rest =>
      if i = j then v :: overlayMerge bs (i + 1) rest
      else b :: overlayMerge bs (i + 1) ((j, v) :: rest)

/-- Modelled from the spec: Sparse Overlay construction (§4.4).  The
index array is decoded and validated (strictly increasing, every index
`< accessor.count`, `sparse.count ≤ accessor.count`) and the value
array is decoded, all before any element is emitted; a violation or a
bounds failure fails the whole construction (`none`). -/
def overlayConstruct (a : AccessorDesc) (spCount : Nat) (it : IndexType)
    (idxOff valOff : Nat) (idxBytes valBytes : List Nat)
    (baseSeq : List (Option Element)) : Option (List (Option Element)) :=
  match decodeIndices it idxOff spCount idxBytes with
  | none => none
  | some idxs =>
      if strictIncr idxs && idxs.all (fun i => decide (i < a.count))
          && decide (spCount ≤ a.count) then
        match decodeValues a.encoding a.shape a.normalized valOff spCount valBytes with
        | none => none
        | some vals => some (overlayMerge baseSeq 0 (idxs.zip (vals.map some)))
      else none

/-- First value paired with key `i` in an association list. -/
def pairLookup {α : Type} (ps : List (Nat × α)) (i : Nat) : Option α :=
  (ps.find? fun p => p.1 == i).map fun p => p.2

/-- The spec's per-index description of the overlay output (§8): at
position `i`, the decoded value whose decoded index equals `i` when one
exists, otherwise the base sequence's element at `i`. -/
def overlaySpecAt (idxs : List Nat) (vals : List Element)
    (baseSeq : List (Option Element)) (i : Nat) : Option (Option Element) :=
  match pairLookup (idxs.zip vals) i with
  | some v => some (some v)
  | none => baseSeq.get? i

/-- A skin's inverse-bind-matrices accessor as the reader sees it:
the accessor metadata plus the identifier of the buffer its view reads,
mirroring `Skin::inverse_bind_matrices` returning an accessor that
references a view into one buffer. -/
structure IbmAccessor where
  buffer : Nat
  viewOffset : Nat
  viewLength : Nat
  viewStride : Option Nat
  desc : AccessorDesc
deriving DecidableEq

/-- A skin, as `Reader` in `src/skin/util.rs` uses it: an optional
inverse-bind-matrices accessor. -/
structure SkinModel where
  ibm : Option IbmAccessor
deriving DecidableEq

/-- Modelled from the spec: `accessor::Iter::new` — resolves the
accessor's buffer through the byte-source capability (§6); an
unavailable buffer yields `none` as a first-class absent outcome, and
otherwise the dense sequence over the resolved view slice is produced. -/
def iterNew (acc : IbmAccessor) (get : Nat → Option (List Nat)) :
    Option (List (Option Element)) :=
  match get acc.buffer with
  | none => none
  | some bytes =>
      some (denseSeq acc.desc
        (some ((bytes.drop acc.viewOffset).take acc.viewLength, acc.viewStride)))

/-- Embedding of `Reader::read_inverse_bind_matrices` from
`src/skin/util.rs`: `skin.inverse_bind_matrices().and_then(|accessor|
accessor::Iter::new(accessor, get_buffer_data))`. -/
def read_inverse_bind_matrices (skin : SkinModel)
    (get : Nat → Option (List Nat)) : Option (List (Option Element)) :=
  skin.ibm.bind fun acc => iterNew acc get

/-- A sampler handle as in `src/texture.rs`: the JSON index (`none` for
the default sampler) and the underlying JSON record. -/
structure SamplerModel (J : Type) where
  index : Option Nat
  json : J
deriving DecidableEq

/-- Embedding of `Document::samplers()` as `Texture::sampler` consumes
it: the `i`-th yielded sampler is built by `Sampler::new(document, i,
json_i)`, so it carries `index = some i`. -/
def documentSamplers {J : Type} (js : List J) : List (SamplerModel J) :=
  ((List.range js.length).zip js).map fun p => ⟨some p.1, p.2⟩

/-- Embedding of `Texture::sampler` from `src/texture.rs`: when the
texture's JSON declares a sampler index, look it up with
`samplers().nth(index).unwrap()` (`none` models the unwrap panic);
otherwise return `Sampler::default`, whose index is `None`. -/
def textureSampler {J : Type} (js : List J) (defJ : J) (declared : Option Nat) :
    Option (SamplerModel J) :=
  match declared with
  | some i => (documentSamplers js).get? i
  | none => some ⟨none, defJ⟩

/-- Embedding of `Indices::view` from `src/accessor/sparse.rs`:
`document.views().nth(buffer_view).unwrap()`; `none` models the unwrap
panic when the index is past the end of the document's views. -/
def indicesView {V : Type} (views : List V) (buffer_view : Nat) : Option V :=
  views.get? buffer_view

/-- Embedding of `Values::view` from `src/accessor/sparse.rs`, whose
body is identical to `Indices::view`. -/
def valuesView {V : Type} (views : List V) (buffer_view : Nat) : Option V :=
  views.get? buffer_view

/-! ## Helper lemmas -/

theorem optMap_eq_some {α β : Type} {f : α → Option β} :
    ∀ {l : List α} {l2 : List β}, optMap f l = some l2 →
      l2.length = l.length ∧ ∀ k : Nat, l2.get? k = (l.get? k).bind f := by
  intro l
  induction l with
  | nil =>
    intro l2 h
    simp only [optMap] at h
    cases h
    exact ⟨rfl, fun k => by cases k <;> rfl⟩
  | cons a l ih =>
    intro l2 h
    simp only [optMap] at h
    cases hfa : f a with
    | none => rw [hfa] at h; exact absurd h (by simp)
    | some b =>
      rw [hfa] at h
      cases hrec : optMap f l with
      | none => rw [hrec] at h; exact absurd h (by simp)
      | some bs =>
        rw [hrec] at h
        cases h
        obtain ⟨hlen, hget⟩ := ih hrec
        refine ⟨by simp [hlen], fun k => ?_⟩
        cases k with
        | zero => simp [hfa]
        | succ k => simpa using hget k

theorem optMap_isSome_iff {α β : Type} {f : α → Option β} :
    ∀ {l : List α}, (optMap f l).isSome ↔ ∀ a ∈ l, (f a).isSome := by
  intro l
  induction l with
  | nil => simp [optMap]
  | cons a l ih =>
    simp only [optMap]
    cases hfa : f a with
    | none => simp [hfa]
    | some b =>
      cases hrec : optMap f l with
      | none => simp [hrec, ← ih, hfa]
      | some bs => simp [hrec, ← ih, hfa]

theorem readBytes_isSome {s : List Nat} {off n : Nat} :
    (readBytes s off n).isSome ↔ off + n ≤ s.length := by
  unfold readBytes
  split <;> simp_all

theorem strictIncr_pairwise : ∀ l : List Nat, strictIncr l = true → l.Pairwise (· < ·)
  | [], _ => List.Pairwise.nil
  | [a], _ => by simp
  | a :: b :: rest, h => by
    simp only [strictIncr, Bool.and_eq_true, decide_eq_true_eq] at h
    have ih := strictIncr_pairwise (b :: rest) h.2
    refine List.Pairwise.cons ?_ ih
    intro c hc
    rcases List.mem_cons.mp hc with rfl | hc
    · exact h.1
    · exact h.1.trans (List.rel_of_pairwise_cons ih hc)

theorem zip_pairwise_lt {α : Type} :
    ∀ (l : List Nat) (vs : List α), l.Pairwise (· < ·) →
      (l.zip vs).Pairwise fun p q => p.1 < q.1 := by
  intro l
  induction l with
  | nil => intro vs _; simp
  | cons a l ih =>
    intro vs h
    cases vs with
    | nil => simp
    | cons v vs =>
      rw [List.zip_cons_cons]
      refine List.Pairwise.cons ?_ (ih vs (List.Pairwise.of_cons h))
      intro p hp
      obtain ⟨x, y⟩ := p
      exact List.rel_of_pairwise_cons h (List.of_mem_zip hp).1

theorem pairLookup_cons {α : Type} (j : Nat) (v : α) (rest : List (Nat × α)) (i : Nat) :
    pairLookup ((j, v) :: rest) i = if j = i then some v else pairLookup rest i := by
  by_cases h : j = i
  · rw [if_pos h]
    unfold pairLookup
    rw [List.find?_cons_of_pos _ (by simp [h])]
    rfl
  · rw [if_neg h]
    unfold pairLookup
    rw [List.find?_cons_of_neg _ (by simp [h])]

theorem pairLookup_eq_none {α : Type} :
    ∀ {ps : List (Nat × α)} {i : Nat}, (∀ p ∈ ps, p.1 ≠ i) → pairLookup ps i = none := by
  intro ps
  induction ps with
  | nil => intro i _; rfl
  | cons p rest ih =>
    intro i h
    obtain ⟨j, v⟩ := p
    rw [pairLookup_cons, if_neg (h (j, v) (List.mem_cons_self _ _))]
    exact ih fun q hq => h q (List.mem_cons_of_mem _ hq)

theorem pairLookup_zip_map {α β : Type} (g : α → β) :
    ∀ (idxs : List Nat) (vals : List α) (i : Nat),
      pairLookup (idxs.zip (vals.map g)) i = (pairLookup (idxs.zip vals) i).map g := by
  intro idxs
  induction idxs with
  | nil => intro vals i; rfl
  | cons a idxs ih =>
    intro vals i
    cases vals with
    | nil => rfl
    | cons v vals =>
      simp only [List.map_cons, List.zip_cons_cons, pairLookup_cons]
      by_cases h : a = i <;> simp [h, ih]

theorem overlayMerge_length {α : Type} :
    ∀ (bs : List α) (i : Nat) (ps : List (Nat × α)),
      (overlayMerge bs i ps).length = bs.length := by
  intro bs
  induction bs with
  | nil => intro i ps; cases ps <;> rfl
  | cons b bs ih =>
    intro i ps
    cases ps with
    | nil => simp [overlayMerge, ih]
    | cons p rest =>
      obtain ⟨j, v⟩ := p
      by_cases h : i = j <;> simp [overlayMerge, h, ih]

theorem overlayMerge_get? {α : Type} :
    ∀ (bs : List α) (i0 : Nat) (ps : List (Nat × α)),
      ps.Pairwise (fun p q => p.1 < q.1) → (∀ p ∈ ps, i0 ≤ p.1) →
      ∀ k, k < bs.length →
      (overlayMerge bs i0 ps).get? k =
        match pairLookup ps (i0 + k) with
        | some v => some v
        | none => bs.get? k := by
  intro bs
  induction bs with
  | nil => intro i0 ps _ _ k hk; simp at hk
  | cons b bs ih =>
    intro i0 ps hpw hge k hk
    cases ps with
    | nil =>
      cases k with
      | zero => simp [overlayMerge, pairLookup]
      | succ k =>
        have hk2 : k < bs.length := by simpa using hk
        simp only [overlayMerge, List.get?_cons_succ]
        rw [ih (i0 + 1) [] List.Pairwise.nil (by simp) k hk2]
        simp [pairLookup]
    | cons p rest =>
      obtain ⟨j, v⟩ := p
      have hj : i0 ≤ j := hge (j, v) (List.mem_cons_self _ _)
      have hrest_pw : rest.Pairwise fun p q => p.1 < q.1 := List.Pairwise.of_cons hpw
      by_cases hij : i0 = j
      · have hmerge : overlayMerge (b :: bs) i0 ((j, v) :: rest)
            = v :: overlayMerge bs (i0 + 1) rest := by
          simp only [overlayMerge, if_pos hij]
        have hrest_ge : ∀ p ∈ rest, i0 + 1 ≤ p.1 := by
          intro p hp
          have := List.rel_of_pairwise_cons hpw hp
          omega
        cases k with
        | zero =>
          rw [hmerge, pairLookup_cons, if_pos (by omega)]
          rfl
        | succ k =>
          have hk2 : k < bs.length := by simpa using hk
          rw [hmerge, List.get?_cons_succ,
            ih (i0 + 1) rest hrest_pw hrest_ge k hk2, pairLookup_cons,
            if_neg (by omega)]
          have harg : i0 + 1 + k = i0 + (k + 1) := by omega
          rw [harg]
          cases pairLookup rest (i0 + (k + 1)) <;> simp
      · have hjlt : i0 < j := lt_of_le_of_ne hj hij
        have hmerge : overlayMerge (b :: bs) i0 ((j, v) :: rest)
            = b :: overlayMerge bs (i0 + 1) ((j, v) :: rest) := by
          simp only [overlayMerge, if_neg hij]
        have hall_ge : ∀ p ∈ (j, v) :: rest, i0 + 1 ≤ p.1 := by
          intro p hp
          rcases List.mem_cons.mp hp with rfl | hp
          · omega
          · have := List.rel_of_pairwise_cons hpw hp
            omega
        cases k with
        | zero =>
          have hnone : pairLookup ((j, v) :: rest) (i0 + 0) = none := by
            apply pairLookup_eq_none
            intro p hp
            rcases List.mem_cons.mp hp with rfl | hp
            · omega
            · have := List.rel_of_pairwise_cons hpw hp
              omega
          rw [hmerge, hnone]
          rfl
        | succ k =>
          have hk2 : k < bs.length := by simpa using hk
          rw [hmerge, List.get?_cons_succ,
            ih (i0 + 1) ((j, v) :: rest) hpw hall_ge k hk2]
          have harg : i0 + 1 + k = i0 + (k + 1) := by omega
          rw [harg]
          cases pairLookup ((j, v) :: rest) (i0 + (k + 1)) <;> simp

theorem foldr_max_le_iff (f : Nat → Nat) (L off : Nat) :
    ∀ l : List Nat, l ≠ [] →
      (off + l.foldr (fun a m => max (f a) m) 0 ≤ L ↔ ∀ a ∈ l, off + f a ≤ L)
  | [], h => absurd rfl h
  | [a], _ => by simp
  | a :: b :: t, _ => by
    have ih := foldr_max_le_iff f L off (b :: t) (by simp)
    simp only [List.foldr_cons] at ih ⊢
    constructor
    · intro h c hc
      rcases List.mem_cons.mp hc with rfl | hc
      · omega
      · exact ih.mp (by omega) c hc
    · intro h
      have h1 := h a (List.mem_cons_self _ _)
      have h2 := ih.mpr fun c hc => h c (List.mem_cons_of_mem _ hc)
      omega

theorem componentCount_pos (shape : ElementShape) : 0 < componentCount shape := by
  cases shape <;> simp [componentCount]

theorem componentOffsets_length (shape : ElementShape) (cs : Nat) :
    (componentOffsets shape cs).length = componentCount shape := by
  cases shape <;>
    simp [componentOffsets, matCols, componentCount, List.range_succ]

theorem componentOffsets_ne_nil (shape : ElementShape) (cs : Nat) :
    componentOffsets shape cs ≠ [] := by
  intro h
  have hlen := componentOffsets_length shape cs
  rw [h] at hlen
  have hpos := componentCount_pos shape
  simp only [List.length_nil] at hlen
  omega

theorem isSome_optionMap {α β : Type} (f : α → β) (o : Option α) :
    (o.map f).isSome = o.isSome := by
  cases o <;> rfl

theorem decodeElement_isSome_iff (enc : ComponentEncoding) (shape : ElementShape)
    (norm : Bool) (s : List Nat) (off : Nat) :
    (decodeElement enc shape norm s off).isSome ↔
      off + elementSpan enc shape ≤ s.length := by
  unfold decodeElement elementSpan
  rw [optMap_isSome_iff,
    foldr_max_le_iff (fun co => co + componentByteSize enc) s.length off
      (componentOffsets shape (componentByteSize enc))
      (componentOffsets_ne_nil shape (componentByteSize enc))]
  constructor
  · intro h co hco
    have := h co hco
    rw [isSome_optionMap, readBytes_isSome] at this
    omega
  · intro h co hco
    rw [isSome_optionMap, readBytes_isSome]
    have := h co hco
    omega

theorem overlayConstruct_inv {a : AccessorDesc} {spCount : Nat} {it : IndexType}
    {idxOff valOff : Nat} {idxBytes valBytes : List Nat}
    {baseSeq out : List (Option Element)}
    (hc : overlayConstruct a spCount it idxOff valOff idxBytes valBytes baseSeq
      = some out) :
    ∃ idxs vals,
      decodeIndices it idxOff spCount idxBytes = some idxs ∧
      decodeValues a.encoding a.shape a.normalized valOff spCount valBytes
        = some vals ∧
      strictIncr idxs = true ∧ (∀ i ∈ idxs, i < a.count) ∧ spCount ≤ a.count ∧
      out = overlayMerge baseSeq 0 (idxs.zip (vals.map some)) := by
  unfold overlayConstruct at hc
  split at hc
  · exact absurd hc (by simp)
  · rename_i idxs hidx
    split at hc
    · rename_i hguard
      split at hc
      · exact absurd hc (by simp)
      · rename_i vals hval
        simp only [Bool.and_eq_true, decide_eq_true_eq, List.all_eq_true] at hguard
        refine ⟨idxs, vals, hidx, hval, hguard.1.1, ?_, hguard.2, ?_⟩
        · intro i hi
          simpa using hguard.1.2 i hi
        · cases hc
          rfl
    · exact absurd hc (by simp)

theorem replicate_get? {α : Type} (n i : Nat) (x : α) (h : i < n) :
    (List.replicate n x).get? i = some x := by
  rw [List.get?_eq_getElem?, List.getElem?_replicate, if_pos h]

/-! ## Claim theorems -/

/-- C1: for every accessor with a sparse descriptor, once the overlay is
constructed, the output at each position `i < accessor.count` is the
decoded sparse value whose decoded index equals `i` when one exists and
the base sequence's element at `i` otherwise, and the overlay has
exactly `accessor.count` elements. -/
theorem sparse_overlay_correct (a : AccessorDesc) (spCount : Nat) (it : IndexType)
    (idxOff valOff : Nat) (idxBytes valBytes : List Nat)
    (baseSeq out : List (Option Element)) (idxs : List Nat) (vals : List Element)
    (hidx : decodeIndices it idxOff spCount idxBytes = some idxs)
    (hval : decodeValues a.encoding a.shape a.normalized valOff spCount valBytes
      = some vals)
    (hbase : baseSeq.length = a.count)
    (hc : overlayConstruct a spCount it idxOff valOff idxBytes valBytes baseSeq
      = some out) :
    out.length = a.count
    ∧ ∀ i, i < a.count → out.get? i = overlaySpecAt idxs vals baseSeq i := by
  obtain ⟨idxs2, vals2, hidx2, hval2, hinc, hlt, hle, hout⟩ := overlayConstruct_inv hc
  rw [hidx] at hidx2
  rw [hval] at hval2
  injection hidx2 with he1
  injection hval2 with he2
  subst he1
  subst he2
  subst hout
  have hpw := zip_pairwise_lt idxs (vals.map some) (strictIncr_pairwise idxs hinc)
  refine ⟨by rw [overlayMerge_length, hbase], ?_⟩
  intro i hi
  have hk : i < baseSeq.length := by omega
  rw [overlayMerge_get? baseSeq 0 _ hpw (fun p _ => Nat.zero_le _) i hk]
  simp only [Nat.zero_add]
  unfold overlaySpecAt
  rw [pairLookup_zip_map]
  cases pairLookup (idxs.zip vals) i <;> rfl

/-- Shared concrete accessor for the overlay witnesses: VEC3 of
non-normalized unsigned bytes, five elements, no accessor offset. -/
def wA : AccessorDesc := ⟨.unsignedByte, .vec3, false, 5, 0⟩

/-- Concrete overlay output used by the overlay witnesses. -/
def wOut : List (Option Element) :=
  [some [0, 0, 0], some [1, 0, 0], some [0, 0, 0], some [0, 1, 0], some [0, 0, 0]]

/-- Witness for C1 at the spec's zero-baseline scenario. -/
theorem sparse_overlay_correct_witness :
    wOut.length = wA.count
    ∧ ∀ i, i < wA.count →
        wOut.get? i
          = overlaySpecAt [1, 3] [[1, 0, 0], [0, 1, 0]] (denseSeq wA none) i :=
  sparse_overlay_correct wA 2 .u8 0 0 [1, 3] [1, 0, 0, 0, 1, 0]
    (denseSeq wA none) wOut [1, 3] [[1, 0, 0], [0, 1, 0]]
    (by decide) (by decide) (by decide) (by decide)

/-- C2: over a resolved slice shorter than
`byte_offset + count * stride`, each dense element whose required bytes
lie wholly inside the slice still decodes, and each element whose
required bytes fall outside the slice fails with the out-of-bounds
outcome (`none`); the embedding's reads are bounds-checked, so no read
ever goes past the slice and no panic is possible. -/
theorem dense_read_bounds (a : AccessorDesc) (s : List Nat) (st i : Nat)
    (hshort : s.length < a.byteOffset + a.count * st) (hi : i < a.count) :
    (a.byteOffset + i * st + elementSpan a.encoding a.shape ≤ s.length →
      ∃ e, denseElementAt a s st i = some e)
    ∧ (s.length < a.byteOffset + i * st + elementSpan a.encoding a.shape →
      denseElementAt a s st i = none) := by
  unfold denseElementAt
  constructor
  · intro h
    exact Option.isSome_iff_exists.mp
      ((decodeElement_isSome_iff a.encoding a.shape a.normalized s
        (a.byteOffset + i * st)).mpr h)
  · intro h
    rw [← Option.not_isSome_iff_eq_none,
      decodeElement_isSome_iff a.encoding a.shape a.normalized s
        (a.byteOffset + i * st)]
    omega

/-- Concrete accessor for the bounds witness: four VEC3 float elements
(48 required bytes) over a 40-byte slice, as in the spec's scenario 5. -/
def wA5 : AccessorDesc := ⟨.float, .vec3, false, 4, 0⟩

/-- Concrete 40-byte slice for the bounds witness. -/
def wS : List Nat := List.replicate 40 0

/-- Witness for C2 at scenario 5: the fourth element (index 3). -/
theorem dense_read_bounds_witness :
    (wA5.byteOffset + 3 * 12 + elementSpan wA5.encoding wA5.shape ≤ wS.length →
      ∃ e, denseElementAt wA5 wS 12 3 = some e)
    ∧ (wS.length < wA5.byteOffset + 3 * 12 + elementSpan wA5.encoding wA5.shape →
      denseElementAt wA5 wS 12 3 = none) :=
  dense_read_bounds wA5 wS 12 3 (by decide) (by decide)

/-- C3: a sparse descriptor whose decoded indices are not strictly
increasing, or contain an index `≥ accessor.count`, or whose
`sparse.count > accessor.count`, makes overlay construction fail
(`none`) — no output sequence is ever produced. -/
theorem sparse_malformed_rejected (a : AccessorDesc) (spCount : Nat) (it : IndexType)
    (idxOff valOff : Nat) (idxBytes valBytes : List Nat)
    (baseSeq : List (Option Element)) (idxs : List Nat)
    (hidx : decodeIndices it idxOff spCount idxBytes = some idxs)
    (hbad : strictIncr idxs = false ∨ (∃ i ∈ idxs, a.count ≤ i)
      ∨ a.count < spCount) :
    overlayConstruct a spCount it idxOff valOff idxBytes valBytes baseSeq = none := by
  unfold overlayConstruct
  rw [hidx]
  have hguard : (strictIncr idxs && idxs.all (fun i => decide (i < a.count))
      && decide (spCount ≤ a.count)) = false := by
    rcases hbad with h | ⟨i, hi, hcnt⟩ | h
    · simp [h]
    · have hall : idxs.all (fun i => decide (i < a.count)) = false := by
        rw [Bool.eq_false_iff]
        intro hT
        rw [List.all_eq_true] at hT
        have := hT i hi
        simp at this
        omega
      simp [hall]
    · have : decide (spCount ≤ a.count) = false := by
        simp
        omega
      simp [this]
  simp [hguard]

/-- Witness for C3: decoded indices `[3, 1]` are not strictly
increasing, so construction fails. -/
theorem sparse_malformed_rejected_witness :
    overlayConstruct wA 2 .u8 0 0 [3, 1] [1, 0, 0, 0, 1, 0]
      (denseSeq wA none) = none :=
  sparse_malformed_rejected wA 2 .u8 0 0 [3, 1] [1, 0, 0, 0, 1, 0]
    (denseSeq wA none) [3, 1] (by decide) (Or.inl (by decide))

/-- C4: an accessor with no base buffer view dense-reads as exactly
`count` zero-valued elements (every component zero), and a sparse
overlay over this baseline yields the zero element at every position
not named by a decoded sparse index. -/
theorem zero_baseline_overlay (a : AccessorDesc) (spCount : Nat) (it : IndexType)
    (idxOff valOff : Nat) (idxBytes valBytes : List Nat) (idxs : List Nat)
    (out : List (Option Element))
    (hidx : decodeIndices it idxOff spCount idxBytes = some idxs)
    (hc : overlayConstruct a spCount it idxOff valOff idxBytes valBytes
      (denseSeq a none) = some out) :
    (denseSeq a none).length = a.count
    ∧ (∀ e ∈ denseSeq a none, e = some (zeroElement a.shape))
    ∧ (zeroElement a.shape).length = componentCount a.shape
    ∧ (∀ q ∈ zeroElement a.shape, q = 0)
    ∧ out.length = a.count
    ∧ ∀ i, i < a.count → i ∉ idxs →
        out.get? i = some (some (zeroElement a.shape)) := by
  obtain ⟨idxs2, vals, hidx2, hval, hinc, hlt, hle, hout⟩ := overlayConstruct_inv hc
  rw [hidx] at hidx2
  injection hidx2 with he1
  subst he1
  subst hout
  have hbaselen : (denseSeq a none).length = a.count := by simp [denseSeq]
  refine ⟨hbaselen, ?_, by simp [zeroElement], ?_, ?_, ?_⟩
  · intro e he
    exact List.eq_of_mem_replicate (by simpa [denseSeq] using he)
  · intro q hq
    exact List.eq_of_mem_replicate (by simpa [zeroElement] using hq)
  · rw [overlayMerge_length, hbaselen]
  · intro i hi hnotin
    have hpw := zip_pairwise_lt idxs (vals.map some) (strictIncr_pairwise idxs hinc)
    rw [overlayMerge_get? _ 0 _ hpw (fun p _ => Nat.zero_le _) i (by omega)]
    have hnone : pairLookup (idxs.zip (vals.map some)) (0 + i) = none := by
      apply pairLookup_eq_none
      intro p hp hpi
      have hmem := (List.of_mem_zip hp).1
      rw [Nat.zero_add] at hpi
      exact hnotin (hpi ▸ hmem)
    rw [hnone]
    show (denseSeq a none).get? i = some (some (zeroElement a.shape))
    simp only [denseSeq]
    rw [replicate_get? _ _ _ hi]

/-- Witness for C4 at the spec's scenario 2. -/
theorem zero_baseline_overlay_witness :
    (denseSeq wA none).length = wA.count
    ∧ (∀ e ∈ denseSeq wA none, e = some (zeroElement wA.shape))
    ∧ (zeroElement wA.shape).length = componentCount wA.shape
    ∧ (∀ q ∈ zeroElement wA.shape, q = 0)
    ∧ wOut.length = wA.count
    ∧ ∀ i, i < wA.count → i ∉ [1, 3] →
        wOut.get? i = some (some (zeroElement wA.shape)) :=
  zero_baseline_overlay wA 2 .u8 0 0 [1, 3] [1, 0, 0, 0, 1, 0] [1, 3] wOut
    (by decide) (by decide)

/-- C5: a raw UnsignedByte component decoded normalized lies in
`[0, 1]` with raw `255` mapping to exactly `1`; a raw signed Byte
component decoded normalized lies in `[-1, 1]` with raw `-128` (byte
`128`) clamping to `-1`. -/
theorem normalized_byte_bounds (b : Nat) (hb : b < 256) :
    (0 ≤ decodeComponent .unsignedByte true [b]
      ∧ decodeComponent .unsignedByte true [b] ≤ 1)
    ∧ decodeComponent .unsignedByte true [255] = 1
    ∧ (-1 ≤ decodeComponent .byte true [b]
      ∧ decodeComponent .byte true [b] ≤ 1)
    ∧ decodeComponent .byte true [128] = -1 := by
  have hle : leValue [b] = b := by simp [leValue]
  have hsigned : toSigned b 8 ≤ 127 := by
    unfold toSigned
    split <;> omega
  refine ⟨⟨?_, ?_⟩, ?_, ⟨?_, ?_⟩, ?_⟩
  · simp only [decodeComponent, hle, if_pos]
    positivity
  · simp only [decodeComponent, hle, if_pos]
    rw [div_le_one (by norm_num)]
    exact_mod_cast Nat.le_of_lt_succ hb
  · simp [decodeComponent, leValue]
  · simp only [decodeComponent, hle, if_pos]
    exact le_max_right _ _
  · simp only [decodeComponent, hle, if_pos]
    apply max_le _ (by norm_num)
    rw [div_le_one (by norm_num)]
    exact_mod_cast hsigned
  · have h128 : toSigned (leValue [128]) 8 = -128 := by decide
    simp only [decodeComponent, h128]
    norm_num

/-- Witness for C5 at raw byte 200. -/
theorem normalized_byte_bounds_witness :
    (0 ≤ decodeComponent .unsignedByte true [200]
      ∧ decodeComponent .unsignedByte true [200] ≤ 1)
    ∧ decodeComponent .unsignedByte true [255] = 1
    ∧ (-1 ≤ decodeComponent .byte true [200]
      ∧ decodeComponent .byte true [200] ≤ 1)
    ∧ decodeComponent .byte true [128] = -1 :=
  normalized_byte_bounds 200 (by decide)

/-- C6 counterexample: at the concrete unsupported component code 5120
(signed byte), `Indices::index_type` hits its `unreachable!()` arm — it
panics instead of producing a malformed-input error. -/
theorem index_type_unknown_code_cex :
    index_type ComponentType.i8 = IndexTypeOutcome.unreachablePanic
    ∧ index_type ComponentType.i8 ≠ IndexTypeOutcome.malformedError := by
  decide

/-- C6 (amended): for every sparse-index component code outside
{UnsignedByte, UnsignedShort, UnsignedInt}, `Indices::index_type`
treats the code as an unreachable case (a panic), not as a
malformed-input error; rejection of unknown codes is left to the JSON
layer upstream. -/
theorem index_type_unknown_code_panics (c : ComponentType)
    (h : c ≠ ComponentType.u8 ∧ c ≠ ComponentType.u16 ∧ c ≠ ComponentType.u32) :
    index_type c = IndexTypeOutcome.unreachablePanic := by
  cases c <;> simp_all [index_type]

/-- Witness for the amended C6 at component code 5126 (float). -/
theorem index_type_unknown_code_panics_witness :
    (ComponentType.f32 ≠ ComponentType.u8
      ∧ ComponentType.f32 ≠ ComponentType.u16
      ∧ ComponentType.f32 ≠ ComponentType.u32)
    ∧ index_type ComponentType.f32 = IndexTypeOutcome.unreachablePanic :=
  ⟨by decide, index_type_unknown_code_panics ComponentType.f32 (by decide)⟩

/-- C7: the wire-format codes and byte sizes of the sparse index types:
U8 ↦ 5121 / 1 byte, U16 ↦ 5123 / 2 bytes, U32 ↦ 5125 / 4 bytes. -/
theorem indexType_codes_and_sizes :
    (IndexType.code .u8 = 5121 ∧ IndexType.size .u8 = 1)
    ∧ (IndexType.code .u16 = 5123 ∧ IndexType.size .u16 = 2)
    ∧ (IndexType.code .u32 = 5125 ∧ IndexType.size .u32 = 4) := by
  decide

/-- C8: when the skin declares no inverse-bind-matrices accessor, or
the byte source yields no bytes for the accessor's buffer,
`Reader::read_inverse_bind_matrices` returns `none` as a first-class
outcome (the embedding is total: no panic, and `none` is not an error
value). -/
theorem read_ibm_unavailable_none (skin : SkinModel)
    (get : Nat → Option (List Nat))
    (h : skin.ibm = none ∨ ∃ acc, skin.ibm = some acc ∧ get acc.buffer = none) :
    read_inverse_bind_matrices skin get = none := by
  rcases h with h | ⟨acc, hs, hg⟩
  · simp [read_inverse_bind_matrices, h]
  · simp [read_inverse_bind_matrices, hs, iterNew, hg]

/-- Concrete inverse-bind-matrices accessor for the C8 witness. -/
def wIbm : IbmAccessor := ⟨0, 0, 64, none, ⟨.float, .mat4, false, 1, 0⟩⟩

/-- Witness for C8: a skin with an accessor over buffer 0 while the
byte source has no data at all. -/
theorem read_ibm_unavailable_none_witness :
    read_inverse_bind_matrices ⟨some wIbm⟩ (fun _ => none) = none :=
  read_ibm_unavailable_none ⟨some wIbm⟩ (fun _ => none)
    (Or.inr ⟨wIbm, rfl, rfl⟩)

theorem documentSamplers_get? {J : Type} (js : List J) (i : Nat) :
    (documentSamplers js).get? i
      = (js.get? i).map fun j => (⟨some i, j⟩ : SamplerModel J) := by
  unfold documentSamplers
  rw [← List.enum_eq_zip_range, List.get?_map, List.get?_enum]
  cases js.get? i <;> rfl

/-- C9: `Texture::sampler` returns the document's sampler at the
declared index when one is declared (given the index is within the
document's sampler list), and the default sampler otherwise; the
returned sampler's `index()` is `None` exactly when it is the default
sampler. -/
theorem texture_sampler_spec {J : Type} (js : List J) (defJ : J)
    (declared : Option Nat)
    (h : ∀ i, declared = some i → i < js.length) :
    ∃ s, textureSampler js defJ declared = some s
      ∧ (∀ i, declared = some i → s.index = some i ∧ js.get? i = some s.json)
      ∧ (declared = none → s = ⟨none, defJ⟩)
      ∧ (s.index = none ↔ declared = none) := by
  cases declared with
  | none =>
    exact ⟨⟨none, defJ⟩, rfl, by simp, fun _ => rfl, by simp⟩
  | some i =>
    have hi : i < js.length := h i rfl
    obtain ⟨j, hj⟩ : ∃ j, js.get? i = some j := by
      rw [List.get?_eq_getElem?, List.getElem?_eq_getElem hi]
      exact ⟨js[i], rfl⟩
    refine ⟨⟨some i, j⟩, ?_, ?_, ?_, ?_⟩
    · show (documentSamplers js).get? i = _
      rw [documentSamplers_get?, hj]
      rfl
    · intro i2 h2
      injection h2 with h3
      subst h3
      exact ⟨rfl, hj⟩
    · intro h2
      exact absurd h2 (by simp)
    · simp

/-- Witness for C9: document samplers `[7, 9]`, declared index 1. -/
theorem texture_sampler_spec_witness :
    ∃ s, textureSampler [7, 9] 0 (some 1) = some s
      ∧ (∀ i, (some 1 : Option Nat) = some i →
          s.index = some i ∧ [7, 9].get? i = some s.json)
      ∧ ((some 1 : Option Nat) = none → s = ⟨none, 0⟩)
      ∧ (s.index = none ↔ (some 1 : Option Nat) = none) :=
  texture_sampler_spec [7, 9] 0 (some 1)
    (by intro i hi; injection hi with h2; subst h2; decide)

/-- C10: `Indices::view` and `Values::view` return the document's
buffer view at the descriptor's `buffer_view` index; when that index is
within the document's view list the lookup succeeds, so the internal
`unwrap` branch is unreachable and neither function panics. -/
theorem sparse_view_lookup {V : Type} (views : List V) (bv : Nat)
    (h : bv < views.length) :
    ∃ v, views.get? bv = some v ∧ indicesView views bv = some v
      ∧ valuesView views bv = some v := by
  obtain ⟨v, hv⟩ : ∃ v, views.get? bv = some v := by
    rw [List.get?_eq_getElem?, List.getElem?_eq_getElem h]
    exact ⟨views[bv], rfl⟩
  exact ⟨v, hv, hv, hv⟩

/-- Witness for C10: two views, index 1. -/
theorem sparse_view_lookup_witness :
    ∃ v, ([3, 5] : List Nat).get? 1 = some v
      ∧ indicesView [3, 5] 1 = some v ∧ valuesView [3, 5] 1 = some v :=
  sparse_view_lookup [3, 5] 1 (by decide)

end Gltf
